import Mathlib

/-!
The example servers of dd-opentracing-cpp

A shallow embedding of the three node.js example servers

* `examples/cpp-tracing/compiled-in/agent.js`      (namespace `CompiledIn`)
* `examples/envoy-tracing/services/agent/agent.js` (namespace `Envoy`)
* `examples/envoy-tracing/services/service1/service1.js` (namespace `Service1`)

A callback is a computation in `Run`: it produces a list of observable events
(calls of the codec, of the sink, of `console.log`, of the response object) and
either returns or throws.  The `massagepack` codec is not part of the
repository: `decode` and `encodeJSON` are parameters of the handlers.
-/

namespace Examples

/-! ## Values of the runtime -/

/-- A node.js `Buffer` (also the type of a body chunk): a sequence of bytes. -/
abbrev Buffer := List (Fin 256)

/-- `Buffer.concat(list)`: the buffers of `list`, concatenated in order. -/
def Buffer.concat (list : List Buffer) : Buffer :=
  list.flatten

/-- The JavaScript Numbers that can occur as a status code in these programs:
a non-negative integer, `Infinity`, or `NaN`. -/
inductive Number where
  | nan
  | infinity
  | int (n : Nat)
  deriving DecidableEq, Repr

/-- What a callback can throw: the error raised by the codec, or the
`RangeError` (`ERR_HTTP_INVALID_STATUS_CODE`) of `response.writeHead`. -/
inductive Thrown (E : Type) where
  | decodeError (e : E)
  | invalidStatusCode (statusCode : Number)
  deriving DecidableEq, Repr

/-- Observable events of a handler, in program order. -/
inductive Event (V : Type) where
  /-- The codec is invoked: `msgpack.decode(body)`. -/
  | decode (body : Buffer)
  /-- The sink is entered: `handleTraceSegments(segments)`. -/
  | sink (segments : V)
  /-- One line on standard output: `console.log(line)`. -/
  | consoleLog (line : String)
  /-- The status line is set: `response.writeHead(statusCode)` accepted `statusCode`. -/
  | writeHead (statusCode : Int)
  /-- The call `response.end(data)`; `none` is `response.end()`. What the client
  is sent as body is given by `bodies`. -/
  | responseEnd (data : Option String)
  deriving DecidableEq, Repr

/-- The run of a callback: the events it produced, and its completion, which is
a returned value or a thrown error. -/
structure Run (V E α : Type) where
  events : List (Event V)
  result : Except (Thrown E) α

namespace Run

variable {V E α β : Type}

/-- Return without any event. -/
def ret (a : α) : Run V E α := ⟨[], .ok a⟩

/-- Sequencing of statements: the second runs only if the first returned. -/
def seq (x : Run V E α) (f : α → Run V E β) : Run V E β :=
  match x.result with
  | .error e => ⟨x.events, .error e⟩
  | .ok a => ⟨x.events ++ (f a).events, (f a).result⟩

instance : Monad (Run V E) where
  pure := ret
  bind := seq

/-- Produce one event. -/
def emit (ev : Event V) : Run V E Unit := ⟨[ev], .ok ()⟩

/-- The statement `throw e`. -/
def raise (e : Thrown E) : Run V E α := ⟨[], .error e⟩

end Run

/-! ## Library functions used by the handlers -/

/-- `String.prototype.endsWith(searchString)`: the last `searchString.length`
characters of the string are `searchString`. -/
def endsWith (s searchString : String) : Bool :=
  let str := s.toList
  let search := searchString.toList
  if str.length < search.length then false
  else str.drop (str.length - search.length) == search

/-- `ToInt32`, as applied by `statusCode |= 0`: `NaN` and `Infinity` become 0,
an integer is reduced modulo `2^32` into the signed 32-bit range. -/
def toInt32 : Number → Int
  | .nan => 0
  | .infinity => 0
  | .int n =>
    let m : Nat := n % 2 ^ 32
    if m ≥ 2 ^ 31 then (m : Int) - 2 ^ 32 else (m : Int)

/-- `response.writeHead(statusCode)` of node's `http.ServerResponse`, called
before any header is sent: `statusCode |= 0`, then a `RangeError` unless
`100 ≤ statusCode ≤ 999`, else the status line is set. -/
def writeHead {V E : Type} (statusCode : Number) : Run V E Unit :=
  let code := toInt32 statusCode
  if code < 100 ∨ code > 999 then Run.raise (.invalidStatusCode statusCode)
  else Run.emit (.writeHead code)

/-- `response.end(data)`. -/
def responseEnd {V E : Type} (data : Option String) : Run V E Unit :=
  Run.emit (.responseEnd data)

/-- `JSON.stringify({})`: the two characters of the empty object. -/
def stringifyEmptyObject : String := "\x7b\x7d"

/-- The part of an `http.IncomingMessage` that matters here: the URL and the
headers, which the handlers read, and the method (`"GET"`, `"POST"`, `"HEAD"`,
...), which no handler reads but which decides whether node sends a response
body. -/
structure Request (H : Type) where
  method : String
  url : String
  headers : H

/-- The state a `requestListener` call leaves behind for its request: either no
listener was registered, or the `data` and `end` listeners are registered and share
the closure variable `body`, the array of chunks pushed so far. -/
inductive Listening where
  | unregistered
  | registered (body : List Buffer)
  deriving DecidableEq, Repr

/-! ## `examples/envoy-tracing/services/agent/agent.js` -/

namespace Envoy

variable {V E H : Type}

/-- `handleTraceSegments(segments)`: prints `msgpack.encodeJSON(segments)`. -/
def handleTraceSegments (encodeJSON : V → String) (segments : V) : Run V E Unit := do
  Run.emit (.sink segments)
  Run.emit (.consoleLog (encodeJSON segments))

/-- The `data` listener, `chunk => body.push(chunk)`. -/
def onData (body : List Buffer) (chunk : Buffer) : List Buffer :=
  body ++ [chunk]

/-- The `end` listener. -/
def onEnd (decode : Buffer → Except E V) (encodeJSON : V → String)
    (body : List Buffer) : Run V E Unit := do
  let body := Buffer.concat body
  Run.emit (.decode body)
  match decode body with
  | .error e => Run.raise (.decodeError e)
  | .ok trace_segments =>
    handleTraceSegments encodeJSON trace_segments
    writeHead (.int 200)
    responseEnd (some stringifyEmptyObject)

/-- `requestListener(request, response)`: the synchronous part. -/
def requestListener (request : Request H) : Run V E Listening := do
  if !(endsWith request.url "/traces") then
    writeHead (.int 404)
    responseEnd none
    return .unregistered
  let body : List Buffer := []
  return .registered body

/-- `const port = 8126`. -/
def port : Nat := 8126

end Envoy

/-! ## `examples/cpp-tracing/compiled-in/agent.js` -/

namespace CompiledIn

variable {V E H : Type}

/-- `handleTraceSegments(segments)`: prints `mpack.encodeJSON(segments)`. -/
def handleTraceSegments (encodeJSON : V → String) (segments : V) : Run V E Unit := do
  Run.emit (.sink segments)
  Run.emit (.consoleLog (encodeJSON segments))

/-- The `data` listener, `chunk => body.push(chunk)`. -/
def onData (body : List Buffer) (chunk : Buffer) : List Buffer :=
  body ++ [chunk]

/-- The `end` listener. -/
def onEnd (decode : Buffer → Except E V) (encodeJSON : V → String)
    (body : List Buffer) : Run V E Unit := do
  let body := Buffer.concat body
  Run.emit (.decode body)
  match decode body with
  | .error e => Run.raise (.decodeError e)
  | .ok trace_segments =>
    handleTraceSegments encodeJSON trace_segments
    writeHead (.int 200)
    responseEnd (some stringifyEmptyObject)

/-- `requestListener(request, response)`: the synchronous part. The request is
not inspected. -/
def requestListener (_request : Request H) : Run V E Listening := do
  let body : List Buffer := []
  return .registered body

/-- `const port = 8126`. -/
def port : Nat := 8126

end CompiledIn

/-! ## `examples/envoy-tracing/services/service1/service1.js` -/

namespace Service1

/-- The characters the regular expression atom `.` does not match: line feed,
carriage return, line separator and paragraph separator. -/
def isLineTerminator (c : Char) : Bool :=
  c == '\n' || c == '\r' || c == '\u2028' || c == '\u2029'

/-- The character class `[0-9]`. -/
def isDigit (c : Char) : Bool :=
  decide ('0' ≤ c) && decide (c ≤ '9')

/-- Match of a literal at the start of the input: the input after it. -/
def literal : List Char → List Char → Option (List Char)
  | [], s => some s
  | _ :: _, [] => none
  | c :: cs, d :: s => if c = d then literal cs s else none

/-- The end of the pattern, `([0-9]+)$`, with the group taking `n` digits:
the end of the input must follow; otherwise the group gives one digit back, and
fails when it would be left with none. The result is the text of the group. -/
def digitsThenEnd (s : List Char) : Nat → Option (List Char)
  | 0 => none
  | n + 1 => if s.drop (n + 1) = [] then some (s.take (n + 1)) else digitsThenEnd s n

/-- The pattern after `.*`, that is `\/status\/([0-9]+)$`: the literal, then
the group, greedy, starting from all the digits there are. -/
def afterDotStar (s : List Char) : Option (List Char) :=
  match literal "/status/".toList s with
  | none => none
  | some rest => digitsThenEnd rest (rest.takeWhile isDigit).length

/-- The whole pattern with `.*` taking `k` characters: the rest of the pattern
is tried after them; when it fails `.*` gives one character back. -/
def dotStarThen (s : List Char) : Nat → Option (List Char)
  | 0 => afterDotStar s
  | k + 1 =>
    match afterDotStar (s.drop (k + 1)) with
    | some statusString => some statusString
    | none => dotStarThen s k

/-- The pattern tried at the start of `s`: `.*` is greedy and starts from all
the characters up to the first line terminator. -/
def matchHere (s : List Char) : Option (List Char) :=
  dotStarThen s (s.takeWhile (fun c => !isLineTerminator c)).length

/-- `url.match(/.*\/status\/([0-9]+)$/)`: the pattern is tried at every start
index from the left and the first match wins; `none` is `null`. Of the match
only the group, `statusString`, is kept (`full` is never read). -/
def urlMatch : List Char → Option (List Char)
  | [] => matchHere []
  | c :: s =>
    match matchHere (c :: s) with
    | some statusString => some statusString
    | none => urlMatch s

/-- The value of a decimal digit. -/
def digitValue (c : Char) : Nat := c.toNat - '0'.toNat

/-- The integer a string of decimal digits denotes. -/
def integerValue (digits : List Char) : Nat :=
  digits.foldl (fun acc c => 10 * acc + digitValue c) 0

/-- The Number value for a natural number: itself below `2^53`; above, the
nearest number with 53 significant bits, a tie going to the even one, and
`Infinity` from `2^1024` on. -/
def toNumber (n : Nat) : Number :=
  if n < 2 ^ 53 then .int n
  else
    let shift := Nat.log2 n - 52
    let q := n / 2 ^ shift
    let r := n % 2 ^ shift
    let half := 2 ^ (shift - 1)
    let q := if r > half ∨ (r = half ∧ q % 2 = 1) then q + 1 else q
    if q * 2 ^ shift ≥ 2 ^ 1024 then .infinity else .int (q * 2 ^ shift)

/-- `Number.parseInt(string, 10)` on a string that starts with neither white
space nor a sign (a group `[0-9]+` never does): the Number value of its leading
digits, `NaN` when there is none. (ECMAScript lets an implementation drop the
digits after the 20th; V8 keeps them.) -/
def parseInt (string : List Char) : Number :=
  let digits := string.takeWhile isDigit
  if digits = [] then .nan else toNumber (integerValue digits)

variable {V E H : Type}

/-- `requestListener(request, response)`; `stringify` is
`JSON.stringify` of the object with the fields `service` and `headers`. -/
def requestListener (stringify : H → String) (request : Request H) : Run V E Unit := do
  let responseBody := stringify request.headers
  Run.emit (.consoleLog responseBody)
  let mut status := Number.int 200
  match urlMatch request.url.toList with
  | some statusString => status := parseInt statusString
  | none => pure ()
  writeHead status
  responseEnd (some responseBody)

/-- `const port = 80`. -/
def port : Nat := 80

/-- The port the header comment of the file documents (line 1: "listens on
port 8080"). -/
def documentedPort : Nat := 8080

end Service1

/-! ## Delivery of stream events to an agent -/

/-- The three callbacks an agent script installs. -/
structure Agent (V E H : Type) where
  requestListener : Request H → Run V E Listening
  onData : List Buffer → Buffer → List Buffer
  onEnd : List Buffer → Run V E Unit

/-- The agent of `examples/envoy-tracing/services/agent/agent.js`. -/
def Envoy.agent {V E H : Type} (decode : Buffer → Except E V) (encodeJSON : V → String) :
    Agent V E H :=
  ⟨Envoy.requestListener, Envoy.onData, Envoy.onEnd decode encodeJSON⟩

/-- The agent of `examples/cpp-tracing/compiled-in/agent.js`. -/
def CompiledIn.agent {V E H : Type} (decode : Buffer → Except E V) (encodeJSON : V → String) :
    Agent V E H :=
  ⟨CompiledIn.requestListener, CompiledIn.onData, CompiledIn.onEnd decode encodeJSON⟩

/-- What the body stream of a request emits: `data` with a chunk, or `end`
(here `finish`, `end` being a keyword). -/
inductive StreamEvent where
  | data (chunk : Buffer)
  | finish
  deriving DecidableEq, Repr

/-- Delivery of one stream event of a request to the listeners registered for
it. Without listeners nothing runs. A stream emits `end` once and nothing after
it, so no listener runs for the request after its `end` listener. -/
def deliver {V E H : Type} (agent : Agent V E H) : Listening → StreamEvent → Run V E Listening
  | .unregistered, _ => pure .unregistered
  | .registered body, .data chunk => pure (.registered (agent.onData body chunk))
  | .registered body, .finish => do
    agent.onEnd body
    pure .unregistered

/-- Delivery of the chunks of a body, in order. -/
def deliverChunks {V E H : Type} (agent : Agent V E H) :
    Listening → List Buffer → Run V E Listening
  | l, [] => pure l
  | l, chunk :: chunks => do
    let l ← deliver agent l (.data chunk)
    deliverChunks agent l chunks

/-- One whole request: the listener call, the `data` events of the chunks in
order, then `end`. -/
def serve {V E H : Type} (agent : Agent V E H) (request : Request H) (chunks : List Buffer) :
    Run V E Unit := do
  let l ← agent.requestListener request
  let l ← deliverChunks agent l chunks
  let _ ← deliver agent l .finish
  pure ()

/-- What the server process receives, for requests that are in flight together:
a new request, a chunk of the body of request `id` (its `data` event), the end of
that body (its `end` event). Distinct request objects have distinct `id`s. -/
inductive Input (H : Type) where
  | request (id : Nat) (request : Request H)
  | data (id : Nat) (chunk : Buffer)
  | finish (id : Nat)

/-- The listeners of every request of the process. -/
abbrev Server := Nat → Listening

/-- The process handles one input. -/
def step {V E H : Type} (agent : Agent V E H) (σ : Server) : Input H → Run V E Server
  | .request id request => do
    let l ← agent.requestListener request
    pure (Function.update σ id l)
  | .data id chunk => do
    let l ← deliver agent (σ id) (.data chunk)
    pure (Function.update σ id l)
  | .finish id => do
    let l ← deliver agent (σ id) .finish
    pure (Function.update σ id l)

/-- The process handles inputs one after the other; an error thrown by a
callback is not caught by anything and ends the run. -/
def run {V E H : Type} (agent : Agent V E H) : Server → List (Input H) → Run V E Server
  | σ, [] => pure σ
  | σ, i :: rest => do
    let σ ← step agent σ i
    run agent σ rest

/-- The chunks of request `id` among the inputs, in arrival order. -/
def chunksOf {H : Type} (id : Nat) : List (Input H) → List Buffer
  | [] => []
  | .data j chunk :: rest => if j = id then chunk :: chunksOf id rest else chunksOf id rest
  | _ :: rest => chunksOf id rest

/-- An input that starts or ends request `id`. -/
def Input.bounds {H : Type} (id : Nat) : Input H → Bool
  | .request j _ => j == id
  | .finish j => j == id
  | .data _ _ => false

/-! ## Observations on a list of events -/

/-- The buffers the codec was invoked on. -/
def decodeCalls {V : Type} : List (Event V) → List Buffer
  | [] => []
  | .decode body :: rest => body :: decodeCalls rest
  | _ :: rest => decodeCalls rest

/-- The values the sink was called with. -/
def sinkCalls {V : Type} : List (Event V) → List V
  | [] => []
  | .sink segments :: rest => segments :: sinkCalls rest
  | _ :: rest => sinkCalls rest

/-- The lines printed on standard output. -/
def printed {V : Type} : List (Event V) → List String
  | [] => []
  | .consoleLog line :: rest => line :: printed rest
  | _ :: rest => printed rest

/-- The status codes written. -/
def statuses {V : Type} : List (Event V) → List Int
  | [] => []
  | .writeHead statusCode :: rest => statusCode :: statuses rest
  | _ :: rest => statuses rest

/-- Whether node sends the body of a response: it sends none in answer to a
`HEAD` request, and none with status 204, 304 or 1xx. -/
def hasBody (method : String) (statusCode : Int) : Bool :=
  method != "HEAD" && statusCode != 204 && statusCode != 304 &&
    !(decide (100 ≤ statusCode) && decide (statusCode ≤ 199))

/-- The response bodies the client is sent in answer to a request with the
given method, `statusCode` being the status set so far: `response.end(data)`
sends `data` when the response has a body, and nothing when it has none or when
`data` is absent. -/
def bodiesFrom {V : Type} (method : String) (statusCode : Int) :
    List (Event V) → List String
  | [] => []
  | .writeHead code :: rest => bodiesFrom method code rest
  | .responseEnd data :: rest =>
    (if hasBody method statusCode then data.getD "" else "") ::
      bodiesFrom method statusCode rest
  | _ :: rest => bodiesFrom method statusCode rest

/-- The response bodies the client is sent in answer to a request with the
given method; the status is 200 until `writeHead` sets it. -/
def bodies {V : Type} (method : String) (events : List (Event V)) : List String :=
  bodiesFrom method 200 events

/-! ## Sample codec for concrete evaluations -/

/-- A stand-in for `msgpack.decode` in concrete evaluations: it reads one
MessagePack fixarray (the byte `0x90 + n`, then `n` elements) whose elements are
positive fixints (`0x00` to `0x7f`). -/
def sampleDecode : Buffer → Except String (List Nat)
  | [] => .error "truncated"
  | tag :: rest =>
    if tag.val < 0x90 ∨ 0x9f < tag.val then .error "unknown tag"
    else if rest.length < tag.val - 0x90 then .error "truncated"
    else if tag.val - 0x90 < rest.length then .error "trailing data"
    else if rest.all (fun b => b.val < 0x80) then .ok (rest.map Fin.val)
    else .error "unknown tag"

/-- A stand-in for `msgpack.encodeJSON` in concrete evaluations. -/
def sampleEncodeJSON (segments : List Nat) : String :=
  "[" ++ ",".intercalate (segments.map Nat.repr) ++ "]"

/-! ## Lemmas on the handlers -/

section Lemmas

variable {V E H : Type}

theorem Envoy.onEnd_ok (decode : Buffer → Except E V) (encodeJSON : V → String)
    (body : List Buffer) (v : V) (h : decode (Buffer.concat body) = .ok v) :
    Envoy.onEnd decode encodeJSON body =
      ⟨[.decode (Buffer.concat body), .sink v, .consoleLog (encodeJSON v), .writeHead 200,
        .responseEnd (some "\x7b\x7d")], .ok ()⟩ := by
  simp only [Envoy.onEnd, h]
  rfl

theorem Envoy.onEnd_error (decode : Buffer → Except E V) (encodeJSON : V → String)
    (body : List Buffer) (e : E) (h : decode (Buffer.concat body) = .error e) :
    Envoy.onEnd decode encodeJSON body =
      ⟨[.decode (Buffer.concat body)], .error (.decodeError e)⟩ := by
  simp only [Envoy.onEnd, h]
  rfl

theorem CompiledIn.onEnd_eq (decode : Buffer → Except E V) (encodeJSON : V → String)
    (body : List Buffer) :
    CompiledIn.onEnd decode encodeJSON body = Envoy.onEnd decode encodeJSON body := rfl

theorem deliverChunks_unregistered (agent : Agent V E H) (chunks : List Buffer) :
    deliverChunks agent .unregistered chunks = ⟨[], .ok .unregistered⟩ := by
  induction chunks with
  | nil => rfl
  | cons c cs ih =>
    show Run.seq (deliver agent .unregistered (.data c)) (fun l => deliverChunks agent l cs) = _
    simp only [deliver, Run.seq, pure, Run.ret, ih, List.append_nil]

theorem deliverChunks_registered (agent : Agent V E H)
    (hpush : agent.onData = fun body chunk => body ++ [chunk])
    (body chunks : List Buffer) :
    deliverChunks agent (.registered body) chunks = ⟨[], .ok (.registered (body ++ chunks))⟩ := by
  induction chunks generalizing body with
  | nil => simp [deliverChunks, pure, Run.ret]
  | cons c cs ih =>
    show Run.seq (deliver agent (.registered body) (.data c))
      (fun l => deliverChunks agent l cs) = _
    simp only [deliver, Run.seq, pure, Run.ret, hpush, ih, List.append_nil, List.nil_append,
      List.append_assoc, List.singleton_append]

theorem Envoy.requestListener_other (request : Request H)
    (h : endsWith request.url "/traces" = false) :
    (Envoy.requestListener request : Run V E Listening) =
      ⟨[.writeHead 404, .responseEnd none], .ok .unregistered⟩ := by
  simp only [Envoy.requestListener, h]
  rfl

theorem Envoy.requestListener_traces (request : Request H)
    (h : endsWith request.url "/traces" = true) :
    (Envoy.requestListener request : Run V E Listening) = ⟨[], .ok (.registered [])⟩ := by
  simp only [Envoy.requestListener, h]
  rfl

theorem Envoy.serve_traces (decode : Buffer → Except E V) (encodeJSON : V → String)
    (request : Request H) (chunks : List Buffer)
    (h : endsWith request.url "/traces" = true) :
    serve (Envoy.agent decode encodeJSON) request chunks = Envoy.onEnd decode encodeJSON chunks := by
  show Run.seq (Envoy.requestListener request) _ = _
  rw [Envoy.requestListener_traces request h]
  show Run.seq (deliverChunks (Envoy.agent decode encodeJSON) (.registered []) chunks) _ = _
  rw [deliverChunks_registered _ rfl]
  simp only [Run.seq, deliver, bind, pure, Run.ret, Envoy.agent, List.nil_append]
  cases hres : (Envoy.onEnd decode encodeJSON chunks).result <;>
    simp [Run.seq, hres] <;> (rw [← hres])

theorem CompiledIn.serve_eq (decode : Buffer → Except E V) (encodeJSON : V → String)
    (request : Request H) (chunks : List Buffer) :
    serve (CompiledIn.agent decode encodeJSON) request chunks =
      CompiledIn.onEnd decode encodeJSON chunks := by
  show Run.seq (deliverChunks (CompiledIn.agent decode encodeJSON) (.registered []) chunks) _ = _
  rw [deliverChunks_registered _ rfl]
  simp only [Run.seq, deliver, bind, pure, Run.ret, CompiledIn.agent, List.nil_append]
  cases hres : (CompiledIn.onEnd decode encodeJSON chunks).result <;>
    simp [Run.seq, hres] <;> (rw [← hres])

theorem Run.seq_result_ok {α β : Type} (x : Run V E α) (f : α → Run V E β) (b : β)
    (h : (Run.seq x f).result = .ok b) :
    ∃ a, x.result = .ok a ∧ (f a).result = .ok b := by
  unfold Run.seq at h
  cases hx : x.result with
  | error e => simp [hx] at h
  | ok a => exact ⟨a, rfl, by simpa [hx] using h⟩

theorem Run.seq_of_result_ok {α β : Type} (x : Run V E α) (f : α → Run V E β) (a : α)
    (h : x.result = .ok a) :
    Run.seq x f = ⟨x.events ++ (f a).events, (f a).result⟩ := by
  simp [Run.seq, h]

theorem run_cons (agent : Agent V E H) (σ : Server) (i : Input H) (rest : List (Input H)) :
    run agent σ (i :: rest) = Run.seq (step agent σ i) (fun σ => run agent σ rest) := rfl

theorem run_append_result (agent : Agent V E H) (l₁ l₂ : List (Input H)) (σ σ' : Server)
    (h : (run agent σ (l₁ ++ l₂)).result = .ok σ') :
    ∃ σa, (run agent σ l₁).result = .ok σa ∧ (run agent σa l₂).result = .ok σ' := by
  induction l₁ generalizing σ with
  | nil => exact ⟨σ, rfl, h⟩
  | cons i l₁ ih =>
    rw [List.cons_append, run_cons] at h
    obtain ⟨σ₁, h₁, h₂⟩ := Run.seq_result_ok _ _ _ h
    obtain ⟨σa, ha, hb⟩ := ih σ₁ h₂
    refine ⟨σa, ?_, hb⟩
    rw [run_cons, Run.seq_of_result_ok _ _ _ h₁]
    exact ha

theorem step_data_result (agent : Agent V E H)
    (hpush : agent.onData = fun body chunk => body ++ [chunk])
    (σ : Server) (j : Nat) (chunk : Buffer) :
    ∃ l, step agent σ (.data j chunk) = ⟨[], .ok (Function.update σ j l)⟩ ∧
      ∀ body, σ j = .registered body → l = .registered (body ++ [chunk]) := by
  cases hj : σ j with
  | unregistered =>
    refine ⟨.unregistered, ?_, fun body hb => by simp at hb⟩
    show Run.seq (deliver agent (σ j) (.data chunk)) _ = _
    rw [hj]
    rfl
  | registered b =>
    refine ⟨.registered (b ++ [chunk]), ?_, fun body hb => by simp at hb; rw [hb]⟩
    show Run.seq (deliver agent (σ j) (.data chunk)) _ = _
    rw [hj]
    simp only [deliver, hpush, Run.seq, pure, Run.ret, List.append_nil]

theorem step_other (agent : Agent V E H)
    (hpush : agent.onData = fun body chunk => body ++ [chunk])
    (id : Nat) (i : Input H) (hi : Input.bounds id i = false) (σ σ' : Server)
    (h : (step agent σ i).result = .ok σ') :
    ∀ body, σ id = .registered body →
      σ' id = .registered (body ++ chunksOf id [i]) := by
  intro body hbody
  cases i with
  | request j r =>
    have hj : j ≠ id := by simpa [Input.bounds] using hi
    obtain ⟨l, -, hl⟩ := Run.seq_result_ok _ _ _ (show (Run.seq (agent.requestListener r)
      (fun l => pure (Function.update σ j l))).result = .ok σ' from h)
    have hσ : σ' = Function.update σ j l := by
      simpa [pure, Run.ret] using hl.symm
    rw [hσ, Function.update_noteq (Ne.symm hj), hbody]
    simp [chunksOf]
  | data j chunk =>
    obtain ⟨l, hstep, hl⟩ := step_data_result agent hpush σ j chunk
    rw [hstep] at h
    have hσ : σ' = Function.update σ j l := by simpa using h.symm
    by_cases hj : j = id
    · subst hj
      rw [hσ, Function.update_same, hl body hbody]
      simp [chunksOf]
    · rw [hσ, Function.update_noteq (Ne.symm hj), hbody]
      simp [chunksOf, hj]
  | finish j =>
    have hj : j ≠ id := by simpa [Input.bounds] using hi
    obtain ⟨l, -, hl⟩ := Run.seq_result_ok _ _ _ (show (Run.seq (deliver agent (σ j) .finish)
      (fun l => pure (Function.update σ j l))).result = .ok σ' from h)
    have hσ : σ' = Function.update σ j l := by
      simpa [pure, Run.ret] using hl.symm
    rw [hσ, Function.update_noteq (Ne.symm hj), hbody]
    simp [chunksOf]

theorem chunksOf_cons {H : Type} (id : Nat) (i : Input H) (rest : List (Input H)) :
    chunksOf id (i :: rest) = chunksOf id [i] ++ chunksOf id rest := by
  cases i with
  | request j r => simp [chunksOf]
  | data j chunk => by_cases hj : j = id <;> simp [chunksOf, hj]
  | finish j => simp [chunksOf]

theorem run_keeps_body (agent : Agent V E H)
    (hpush : agent.onData = fun body chunk => body ++ [chunk])
    (id : Nat) (mid : List (Input H)) (hmid : ∀ i ∈ mid, Input.bounds id i = false)
    (σ σ' : Server) (body : List Buffer) (hσ : σ id = .registered body)
    (hrun : (run agent σ mid).result = .ok σ') :
    σ' id = .registered (body ++ chunksOf id mid) := by
  induction mid generalizing σ body with
  | nil =>
    have : σ' = σ := by simpa [run, pure, Run.ret] using hrun.symm
    simp [this, hσ, chunksOf]
  | cons i rest ih =>
    rw [run_cons] at hrun
    obtain ⟨σ₁, h₁, h₂⟩ := Run.seq_result_ok _ _ _ hrun
    have hi := hmid i (List.mem_cons_self _ _)
    have h₃ := step_other agent hpush id i hi σ σ₁ h₁ body hσ
    have h₄ := ih (fun x hx => hmid x (List.mem_cons_of_mem _ hx)) σ₁ _ h₃ h₂
    rw [h₄, chunksOf_cons id i rest, List.append_assoc]

theorem Run.seq_assoc {α β γ : Type} (x : Run V E α) (f : α → Run V E β)
    (g : β → Run V E γ) :
    Run.seq (Run.seq x f) g = Run.seq x (fun a => Run.seq (f a) g) := by
  cases hx : x.result with
  | error e => simp [Run.seq, hx]
  | ok a =>
    cases hf : (f a).result with
    | error e => simp [Run.seq, hx, hf]
    | ok b => simp [Run.seq, hx, hf]

theorem run_append (agent : Agent V E H) (l₁ l₂ : List (Input H)) (σ : Server) :
    run agent σ (l₁ ++ l₂) = Run.seq (run agent σ l₁) (fun σ => run agent σ l₂) := by
  induction l₁ generalizing σ with
  | nil => simp [run, pure, Run.ret, Run.seq]
  | cons i l₁ ih =>
    rw [List.cons_append, run_cons, run_cons, Run.seq_assoc]
    congr 1
    funext σ₁
    exact ih σ₁

theorem run_snoc_events (agent : Agent V E H) (l : List (Input H)) (i : Input H)
    (σ σ' : Server) (h : (run agent σ l).result = .ok σ') :
    (run agent σ (l ++ [i])).events = (run agent σ l).events ++ (step agent σ' i).events := by
  rw [run_append, Run.seq_of_result_ok _ _ _ h, run_cons]
  cases hs : (step agent σ' i).result <;> simp [Run.seq, hs, run, pure, Run.ret]

theorem decodeCalls_onEnd (decode : Buffer → Except E V) (encodeJSON : V → String)
    (body : List Buffer) :
    decodeCalls (Envoy.onEnd decode encodeJSON body).events = [Buffer.concat body] := by
  cases h : decode (Buffer.concat body) with
  | error e => rw [Envoy.onEnd_error decode encodeJSON body e h]; rfl
  | ok v => rw [Envoy.onEnd_ok decode encodeJSON body v h]; rfl

theorem step_finish_registered (agent : Agent V E H) (σ : Server) (id : Nat)
    (body : List Buffer) (hσ : σ id = .registered body) :
    (step agent σ (.finish id)).events = (agent.onEnd body).events := by
  show (Run.seq (deliver agent (σ id) .finish) _).events = _
  rw [hσ]
  show (Run.seq (Run.seq (agent.onEnd body) _) _).events = _
  cases h : (agent.onEnd body).result <;> simp [Run.seq, h, pure, Run.ret]

theorem hasBody_ok (method : String) :
    hasBody method 200 = (method != "HEAD") := by
  simp [hasBody]

theorem statuses_onEnd_ok (decode : Buffer → Except E V) (encodeJSON : V → String)
    (body : List Buffer) (v : V) (method : String)
    (h : decode (Buffer.concat body) = .ok v) :
    statuses (Envoy.onEnd decode encodeJSON body).events = [200] ∧
      bodies method (Envoy.onEnd decode encodeJSON body).events =
        [if method = "HEAD" then "" else "\x7b\x7d"] := by
  rw [Envoy.onEnd_ok decode encodeJSON body v h]
  refine ⟨rfl, ?_⟩
  simp only [bodies, bodiesFrom, hasBody_ok]
  by_cases hm : method = "HEAD" <;> simp [hm]

theorem step_finish_throws (agent : Agent V E H) (σ : Server) (id : Nat)
    (body : List Buffer) (hσ : σ id = .registered body) (evs : List (Event V)) (e : Thrown E)
    (h : agent.onEnd body = ⟨evs, .error e⟩) (rest : List (Input H)) :
    run agent σ (.finish id :: rest) = ⟨evs, .error e⟩ := by
  rw [run_cons]
  show Run.seq (Run.seq (deliver agent (σ id) .finish) _) _ = _
  rw [hσ]
  show Run.seq (Run.seq (Run.seq (agent.onEnd body) _) _) _ = _
  rw [h]
  rfl

end Lemmas

/-! ## Lemmas on the pattern of `service1.js` -/

namespace Service1

theorem literal_eq_some (cs s rest : List Char) :
    literal cs s = some rest ↔ s = cs ++ rest := by
  induction cs generalizing s with
  | nil => simp [literal, eq_comm]
  | cons c cs ih =>
    cases s with
    | nil => simp [literal]
    | cons d s =>
      by_cases hcd : c = d
      · simp [literal, hcd, ih]
      · simp [literal, hcd, Ne.symm hcd]

theorem digitsThenEnd_eq_some (s d : List Char) (n : Nat) (hn : n ≤ s.length) :
    digitsThenEnd s n = some d ↔ d = s ∧ 0 < n ∧ s.length = n := by
  induction n with
  | zero => simp [digitsThenEnd]
  | succ n ih =>
    unfold digitsThenEnd
    by_cases hdrop : s.drop (n + 1) = []
    · have hlen : s.length = n + 1 := le_antisymm (List.drop_eq_nil_iff.mp hdrop) hn
      rw [if_pos hdrop, List.take_of_length_le (le_of_eq hlen)]
      simp [hlen, eq_comm]
    · have hlen : n + 1 < s.length := by
        rw [List.drop_eq_nil_iff] at hdrop
        omega
      rw [if_neg hdrop, ih (by omega)]
      constructor
      · rintro ⟨-, -, h⟩; omega
      · rintro ⟨-, -, h⟩; omega

theorem afterDotStar_eq_some (s d : List Char) :
    afterDotStar s = some d ↔
      s = "/status/".toList ++ d ∧ d ≠ [] ∧ ∀ c ∈ d, isDigit c = true := by
  unfold afterDotStar
  cases hlit : literal "/status/".toList s with
  | none =>
    constructor
    · intro h
      cases h
    · rintro ⟨hs, -, -⟩
      rw [← literal_eq_some] at hs
      rw [hs] at hlit
      cases hlit
  | some rest =>
    have hs := (literal_eq_some _ _ _).mp hlit
    have hle : (rest.takeWhile isDigit).length ≤ rest.length :=
      (List.takeWhile_prefix isDigit).length_le
    simp only []
    rw [digitsThenEnd_eq_some rest d _ hle]
    constructor
    · rintro ⟨rfl, hpos, hlen⟩
      have htw : d.takeWhile isDigit = d :=
        (List.takeWhile_prefix isDigit).eq_of_length hlen.symm
      refine ⟨hs, ?_, List.takeWhile_eq_self_iff.mp htw⟩
      rintro rfl
      simp at hpos
    · rintro ⟨hs', hne, hall⟩
      have hrest : rest = d := by
        rw [hs] at hs'
        exact List.append_cancel_left hs'
      subst hrest
      have htw : rest.takeWhile isDigit = rest := List.takeWhile_eq_self_iff.mpr hall
      rw [htw]
      exact ⟨rfl, List.length_pos.mpr hne, rfl⟩

theorem dotStarThen_eq_some (s d : List Char) (k : Nat) (h : dotStarThen s k = some d) :
    ∃ j, afterDotStar (s.drop j) = some d := by
  induction k with
  | zero => exact ⟨0, h⟩
  | succ k ih =>
    unfold dotStarThen at h
    cases ha : afterDotStar (s.drop (k + 1)) with
    | none => rw [ha] at h; exact ih h
    | some d' =>
      rw [ha] at h
      cases h
      exact ⟨k + 1, ha⟩

theorem dotStarThen_isSome (s d : List Char) (k : Nat) (h : afterDotStar s = some d) :
    (dotStarThen s k).isSome = true := by
  induction k with
  | zero => simp [dotStarThen, h]
  | succ k ih =>
    unfold dotStarThen
    cases afterDotStar (s.drop (k + 1)) with
    | none => exact ih
    | some d' => rfl

theorem urlMatch_cons (c : Char) (s : List Char) :
    urlMatch (c :: s) =
      match matchHere (c :: s) with
      | some statusString => some statusString
      | none => urlMatch s := by
  rw [urlMatch]

theorem urlMatch_eq_some (s d : List Char) (h : urlMatch s = some d) :
    ∃ p, s = p ++ "/status/".toList ++ d ∧ d ≠ [] ∧ ∀ c ∈ d, isDigit c = true := by
  have key : ∀ t : List Char, matchHere t = some d →
      ∃ p, t = p ++ "/status/".toList ++ d ∧ d ≠ [] ∧ ∀ c ∈ d, isDigit c = true := by
    intro t ht
    obtain ⟨j, hj⟩ := dotStarThen_eq_some t d _ ht
    obtain ⟨hdrop, hne, hall⟩ := (afterDotStar_eq_some _ _).mp hj
    refine ⟨t.take j, ?_, hne, hall⟩
    rw [List.append_assoc, ← hdrop, List.take_append_drop]
  induction s with
  | nil => exact key [] (by rw [urlMatch] at h; exact h)
  | cons c s ih =>
    rw [urlMatch_cons] at h
    cases hm : matchHere (c :: s) with
    | some d' =>
      rw [hm] at h
      cases h
      exact key _ hm
    | none =>
      rw [hm] at h
      obtain ⟨p, hp, hne, hall⟩ := ih h
      exact ⟨c :: p, by rw [hp]; rfl, hne, hall⟩

theorem urlMatch_isSome (p s d : List Char) (h : afterDotStar s = some d) :
    (urlMatch (p ++ s)).isSome = true := by
  have hhere : (matchHere s).isSome = true := dotStarThen_isSome s d _ h
  induction p with
  | nil =>
    cases s with
    | nil => rw [List.nil_append, urlMatch]; exact hhere
    | cons c s =>
      rw [List.nil_append, urlMatch_cons]
      cases hm : matchHere (c :: s) with
      | some d' => rfl
      | none => rw [hm] at hhere; cases hhere
  | cons c p ih =>
    rw [List.cons_append, urlMatch_cons]
    cases matchHere (c :: (p ++ s)) with
    | some d' => rfl
    | none => exact ih

/-- The digits that end a string are determined by the string. -/
theorem status_digits_unique (p p' d d' : List Char)
    (hd : ∀ c ∈ d, isDigit c = true) (hd' : ∀ c ∈ d', isDigit c = true)
    (h : p ++ "/status/".toList ++ d = p' ++ "/status/".toList ++ d') : d = d' := by
  have key : ∀ (q e : List Char), (∀ c ∈ e, isDigit c = true) →
      ((q ++ "/status/".toList ++ e).reverse.takeWhile isDigit) = e.reverse := by
    intro q e he
    have hrev : (q ++ "/status/".toList ++ e).reverse =
        e.reverse ++ ('/' :: ("/status".toList.reverse ++ q.reverse)) := by
      simp [List.reverse_append]
    rw [hrev, List.takeWhile_append_of_pos (by simpa using he),
      List.takeWhile_cons_of_neg (by decide), List.append_nil]
  have h₁ := key p d hd
  have h₂ := key p' d' hd'
  rw [h] at h₁
  exact List.reverse_injective (h₁.symm.trans h₂)

theorem urlMatch_of_form (p d : List Char) (hne : d ≠ [])
    (hall : ∀ c ∈ d, isDigit c = true) :
    urlMatch (p ++ "/status/".toList ++ d) = some d := by
  have hafter : afterDotStar ("/status/".toList ++ d) = some d :=
    (afterDotStar_eq_some _ _).mpr ⟨rfl, hne, hall⟩
  have hsome := urlMatch_isSome p _ d hafter
  rw [← List.append_assoc] at hsome
  cases hm : urlMatch (p ++ "/status/".toList ++ d) with
  | none => rw [hm] at hsome; cases hsome
  | some d' =>
    obtain ⟨p', hp', -, hall'⟩ := urlMatch_eq_some _ _ hm
    rw [status_digits_unique p p' d d' hall hall' hp']

theorem parseInt_digits (d : List Char) (hne : d ≠ []) (hall : ∀ c ∈ d, isDigit c = true)
    (hsmall : integerValue d < 2 ^ 53) :
    parseInt d = .int (integerValue d) := by
  have htw : d.takeWhile isDigit = d := List.takeWhile_eq_self_iff.mpr hall
  simp only [parseInt, htw, if_neg hne, toNumber, if_pos hsmall]

theorem writeHead_int {V E : Type} (n : Nat) (hlo : 100 ≤ n) (hhi : n ≤ 999) :
    (writeHead (.int n) : Run V E Unit) = ⟨[.writeHead n], .ok ()⟩ := by
  have hmod : n % 2 ^ 32 = n := Nat.mod_eq_of_lt (by omega)
  have h31 : ¬ (n ≥ 2 ^ 31) := by omega
  have hcode : toInt32 (.int n) = (n : Int) := by
    simp only [toInt32, hmod, if_neg h31]
  have hrange : ¬ ((n : Int) < 100 ∨ (n : Int) > 999) := by omega
  simp only [writeHead, hcode, if_neg hrange]
  rfl

end Service1

/-! ## The agents -/

section Agents

variable {V E H : Type}

/-- C1: in the envoy-tracing agent, a request whose URL does not end with
`/traces` gets status 404 with an empty body from `requestListener`, which
registers no listener: no chunk is buffered, and over the whole request the codec
is never invoked and the sink is never called. -/
theorem envoy_other_url_not_found (decode : Buffer → Except E V) (encodeJSON : V → String)
    (request : Request H) (chunks : List Buffer)
    (h : endsWith request.url "/traces" = false) :
    (Envoy.requestListener request : Run V E Listening) =
        ⟨[.writeHead 404, .responseEnd none], .ok .unregistered⟩ ∧
      deliverChunks (Envoy.agent decode encodeJSON : Agent V E H) .unregistered chunks =
        ⟨[], .ok .unregistered⟩ ∧
      serve (Envoy.agent decode encodeJSON) request chunks =
        ⟨[.writeHead 404, .responseEnd none], .ok ()⟩ ∧
      statuses (serve (Envoy.agent decode encodeJSON) request chunks).events = [404] ∧
      bodies request.method (serve (Envoy.agent decode encodeJSON) request chunks).events
        = [""] ∧
      decodeCalls (serve (Envoy.agent decode encodeJSON) request chunks).events = [] ∧
      sinkCalls (serve (Envoy.agent decode encodeJSON) request chunks).events = [] := by
  have hserve : serve (Envoy.agent decode encodeJSON) request chunks =
      ⟨[.writeHead 404, .responseEnd none], .ok ()⟩ := by
    show Run.seq (Envoy.requestListener request) _ = _
    rw [Envoy.requestListener_other request h]
    show Run.seq ⟨_, _⟩ (fun l => Run.seq (deliverChunks (Envoy.agent decode encodeJSON) l chunks) _)
      = _
    simp only [Run.seq, deliverChunks_unregistered]
    rfl
  refine ⟨Envoy.requestListener_other request h, deliverChunks_unregistered _ _, hserve, ?_⟩
  rw [hserve]
  refine ⟨rfl, ?_, rfl, rfl⟩
  simp [bodies, bodiesFrom]

/-- Witness of C1: a request to `/other` whose body would decode. -/
theorem envoy_other_url_not_found_witness :
    endsWith "/other" "/traces" = false ∧
      serve (Envoy.agent sampleDecode sampleEncodeJSON) (⟨"POST", "/other", ()⟩ : Request Unit)
          [[0x91], [5]] =
        ⟨[.writeHead 404, .responseEnd none], .ok ()⟩ :=
  ⟨by decide,
    (envoy_other_url_not_found sampleDecode sampleEncodeJSON ⟨"POST", "/other", ()⟩ [[0x91], [5]]
      (by decide)).2.2.1⟩

/-- Counterexample to C2: a `HEAD` request to `/v0.4/traces` whose body
decodes. The handler never reads the method, so it runs as for any request and
calls `end` with the text of the empty object; in answer to `HEAD` no body is
sent, so the response is status 200 with an empty body. -/
theorem success_response_head_counterexample :
    endsWith "/v0.4/traces" "/traces" = true ∧
      sampleDecode (Buffer.concat [[0x92, 7], [9]]) = .ok [7, 9] ∧
      serve (Envoy.agent sampleDecode sampleEncodeJSON)
          (⟨"HEAD", "/v0.4/traces", ()⟩ : Request Unit) [[0x92, 7], [9]] =
        ⟨[.decode [0x92, 7, 9], .sink [7, 9], .consoleLog "[7,9]", .writeHead 200,
          .responseEnd (some "\x7b\x7d")], .ok ()⟩ ∧
      statuses (serve (Envoy.agent sampleDecode sampleEncodeJSON)
        (⟨"HEAD", "/v0.4/traces", ()⟩ : Request Unit) [[0x92, 7], [9]]).events = [200] ∧
      bodies "HEAD" (serve (Envoy.agent sampleDecode sampleEncodeJSON)
        (⟨"HEAD", "/v0.4/traces", ()⟩ : Request Unit) [[0x92, 7], [9]]).events = [""] ∧
      bodies "HEAD" (serve (Envoy.agent sampleDecode sampleEncodeJSON)
        (⟨"HEAD", "/v0.4/traces", ()⟩ : Request Unit) [[0x92, 7], [9]]).events
          ≠ ["\x7b\x7d"] :=
  ⟨by decide, rfl, rfl, rfl, by decide, by decide⟩

/-- C2, amended: when the body of a request decodes to `v`, the whole request
returns after the events of a success, whatever `v` is: status 200 is written and
`end` is called with the text of the empty object. The body the client is sent is
that text for every method other than `HEAD`, and is empty for `HEAD`. This holds
in the envoy-tracing agent for a URL ending with `/traces`, and in the compiled-in
agent (for every URL). -/
theorem success_response_200_empty_object (decode : Buffer → Except E V)
    (encodeJSON : V → String) (request : Request H) (chunks : List Buffer) (v : V)
    (hurl : endsWith request.url "/traces" = true)
    (hdec : decode (Buffer.concat chunks) = .ok v) :
    (serve (Envoy.agent decode encodeJSON) request chunks =
          ⟨[.decode (Buffer.concat chunks), .sink v, .consoleLog (encodeJSON v),
            .writeHead 200, .responseEnd (some "\x7b\x7d")], .ok ()⟩ ∧
        statuses (serve (Envoy.agent decode encodeJSON) request chunks).events = [200] ∧
        bodies request.method (serve (Envoy.agent decode encodeJSON) request chunks).events =
          [if request.method = "HEAD" then "" else "\x7b\x7d"]) ∧
      (serve (CompiledIn.agent decode encodeJSON) request chunks =
          ⟨[.decode (Buffer.concat chunks), .sink v, .consoleLog (encodeJSON v),
            .writeHead 200, .responseEnd (some "\x7b\x7d")], .ok ()⟩ ∧
        statuses (serve (CompiledIn.agent decode encodeJSON) request chunks).events = [200] ∧
        bodies request.method (serve (CompiledIn.agent decode encodeJSON) request chunks).events =
          [if request.method = "HEAD" then "" else "\x7b\x7d"]) := by
  rw [Envoy.serve_traces decode encodeJSON request chunks hurl,
    CompiledIn.serve_eq, CompiledIn.onEnd_eq]
  have h := statuses_onEnd_ok decode encodeJSON chunks v request.method hdec
  have hrun := Envoy.onEnd_ok decode encodeJSON chunks v hdec
  exact ⟨⟨hrun, h.1, h.2⟩, ⟨hrun, h.1, h.2⟩⟩

/-- Witness of C2, amended: a two-element array sent in two chunks by `POST` to
`/v0.4/traces`. -/
theorem success_response_200_empty_object_witness :
    endsWith "/v0.4/traces" "/traces" = true ∧
      sampleDecode (Buffer.concat [[0x92, 7], [9]]) = .ok [7, 9] ∧
      statuses (serve (Envoy.agent sampleDecode sampleEncodeJSON)
        (⟨"POST", "/v0.4/traces", ()⟩ : Request Unit) [[0x92, 7], [9]]).events = [200] ∧
      bodies "POST" (serve (Envoy.agent sampleDecode sampleEncodeJSON)
        (⟨"POST", "/v0.4/traces", ()⟩ : Request Unit) [[0x92, 7], [9]]).events
          = ["\x7b\x7d"] :=
  ⟨by decide, rfl,
    (success_response_200_empty_object sampleDecode sampleEncodeJSON
      ⟨"POST", "/v0.4/traces", ()⟩ [[0x92, 7], [9]] [7, 9] (by decide) rfl).1.2.1,
    (success_response_200_empty_object sampleDecode sampleEncodeJSON
      ⟨"POST", "/v0.4/traces", ()⟩ [[0x92, 7], [9]] [7, 9] (by decide) rfl).1.2.2⟩

/-- Counterexample to C3: the body declares an array of ten elements and
supplies two. The codec fails, the `end` listener of the envoy-tracing agent
throws the codec error, and no status is written, in particular not 400. -/
theorem decode_failure_status_400_counterexample :
    sampleDecode (Buffer.concat [[0x9a, 1], [2]]) = .error "truncated" ∧
      Envoy.onEnd sampleDecode sampleEncodeJSON [[0x9a, 1], [2]] =
        ⟨[.decode [0x9a, 1, 2]], .error (.decodeError "truncated")⟩ ∧
      statuses (Envoy.onEnd sampleDecode sampleEncodeJSON [[0x9a, 1], [2]]).events = [] ∧
      serve (Envoy.agent sampleDecode sampleEncodeJSON) (⟨"POST", "/v0.4/traces", ()⟩ : Request Unit)
          [[0x9a, 1], [2]] =
        ⟨[.decode [0x9a, 1, 2]], .error (.decodeError "truncated")⟩ :=
  ⟨rfl, rfl, rfl, rfl⟩

/-- C3, amended: when the codec fails on the body, the `end` listener (of
either agent) does not recover: it throws the codec error after the `decode`
call, it writes no status and no body, and in a server the error ends the run, so
that the inputs after it are not handled. -/
theorem decode_failure_propagates (decode : Buffer → Except E V) (encodeJSON : V → String)
    (body : List Buffer) (e : E) (σ : Server) (id : Nat) (rest : List (Input H))
    (hdec : decode (Buffer.concat body) = .error e)
    (hσ : σ id = .registered body) :
    Envoy.onEnd decode encodeJSON body =
        ⟨[.decode (Buffer.concat body)], .error (.decodeError e)⟩ ∧
      CompiledIn.onEnd decode encodeJSON body =
        ⟨[.decode (Buffer.concat body)], .error (.decodeError e)⟩ ∧
      statuses (Envoy.onEnd decode encodeJSON body).events = [] ∧
      (∀ method, bodies method (Envoy.onEnd decode encodeJSON body).events = []) ∧
      run (Envoy.agent decode encodeJSON) σ (.finish id :: rest) =
        ⟨[.decode (Buffer.concat body)], .error (.decodeError e)⟩ ∧
      run (CompiledIn.agent decode encodeJSON) σ (.finish id :: rest) =
        ⟨[.decode (Buffer.concat body)], .error (.decodeError e)⟩ := by
  have h := Envoy.onEnd_error decode encodeJSON body e hdec
  refine ⟨h, by rw [CompiledIn.onEnd_eq]; exact h, by rw [h]; rfl,
    by intro method; rw [h]; rfl, ?_, ?_⟩
  · exact step_finish_throws (Envoy.agent decode encodeJSON) σ id body hσ _ _ h rest
  · exact step_finish_throws (CompiledIn.agent decode encodeJSON) σ id body hσ _ _
      (by rw [← h]; rfl) rest

/-- Witness of C3, amended: the truncated body, with a second request waiting. -/
theorem decode_failure_propagates_witness :
    sampleDecode (Buffer.concat [[0x9a, 1], [2]]) = .error "truncated" ∧
      run (Envoy.agent sampleDecode sampleEncodeJSON)
          (Function.update (fun _ => .unregistered) 0 (.registered [[0x9a, 1], [2]]))
          [.finish 0, .request 1 (⟨"POST", "/v0.4/traces", ()⟩ : Request Unit), .finish 1] =
        ⟨[.decode [0x9a, 1, 2]], .error (.decodeError "truncated")⟩ :=
  ⟨rfl,
    (decode_failure_propagates sampleDecode sampleEncodeJSON [[0x9a, 1], [2]] "truncated"
      (Function.update (fun _ => .unregistered) 0 (.registered [[0x9a, 1], [2]])) 0
      [.request 1 ⟨"POST", "/v0.4/traces", ()⟩, .finish 1] rfl (by simp)).2.2.2.2.1⟩

/-- C4: when the codec fails on the body of a request (to a URL ending with
`/traces`), the envoy-tracing agent never calls the sink for that request:
neither the `end` listener nor the whole request has a sink call or a printed
line. -/
theorem decode_failure_no_sink_call (decode : Buffer → Except E V) (encodeJSON : V → String)
    (request : Request H) (chunks : List Buffer) (e : E)
    (hurl : endsWith request.url "/traces" = true)
    (hdec : decode (Buffer.concat chunks) = .error e) :
    sinkCalls (Envoy.onEnd decode encodeJSON chunks).events = [] ∧
      printed (Envoy.onEnd decode encodeJSON chunks).events = [] ∧
      sinkCalls (serve (Envoy.agent decode encodeJSON) request chunks).events = [] ∧
      printed (serve (Envoy.agent decode encodeJSON) request chunks).events = [] := by
  rw [Envoy.serve_traces decode encodeJSON request chunks hurl,
    Envoy.onEnd_error decode encodeJSON chunks e hdec]
  exact ⟨rfl, rfl, rfl, rfl⟩

/-- Witness of C4: a body with an unknown tag, sent to `/v0.4/traces`. -/
theorem decode_failure_no_sink_call_witness :
    endsWith "/v0.4/traces" "/traces" = true ∧
      sampleDecode (Buffer.concat [[0xc1]]) = .error "unknown tag" ∧
      sinkCalls (serve (Envoy.agent sampleDecode sampleEncodeJSON)
        (⟨"POST", "/v0.4/traces", ()⟩ : Request Unit) [[0xc1]]).events = [] :=
  ⟨by decide, rfl,
    (decode_failure_no_sink_call sampleDecode sampleEncodeJSON ⟨"POST", "/v0.4/traces", ()⟩ [[0xc1]]
      "unknown tag" (by decide) rfl).2.2.1⟩

/-- C5: when the body decodes to `v`, the `end` listener of the envoy-tracing
agent returns after exactly these effects, in this order: the `decode` call on the
concatenated body, one call of `handleTraceSegments` with `v` itself, which prints
`encodeJSON v`, then `writeHead(200)`, then `end` with the text of the empty
object. -/
theorem success_effects_in_order (decode : Buffer → Except E V) (encodeJSON : V → String)
    (body : List Buffer) (v : V)
    (hdec : decode (Buffer.concat body) = .ok v) :
    Envoy.onEnd decode encodeJSON body =
        ⟨[.decode (Buffer.concat body), .sink v, .consoleLog (encodeJSON v), .writeHead 200,
          .responseEnd (some "\x7b\x7d")], .ok ()⟩ ∧
      (Envoy.handleTraceSegments encodeJSON v : Run V E Unit) =
        ⟨[.sink v, .consoleLog (encodeJSON v)], .ok ()⟩ ∧
      sinkCalls (Envoy.onEnd decode encodeJSON body).events = [v] ∧
      printed (Envoy.onEnd decode encodeJSON body).events = [encodeJSON v] := by
  have h := Envoy.onEnd_ok decode encodeJSON body v hdec
  refine ⟨h, rfl, ?_, ?_⟩ <;> rw [h] <;> rfl

/-- Witness of C5: the array `[7, 9]` sent in two chunks. -/
theorem success_effects_in_order_witness :
    sampleDecode (Buffer.concat [[0x92, 7], [9]]) = .ok [7, 9] ∧
      Envoy.onEnd sampleDecode sampleEncodeJSON [[0x92, 7], [9]] =
        ⟨[.decode [0x92, 7, 9], .sink [7, 9], .consoleLog "[7,9]", .writeHead 200,
          .responseEnd (some "\x7b\x7d")], .ok ()⟩ :=
  ⟨rfl, (success_effects_in_order sampleDecode sampleEncodeJSON [[0x92, 7], [9]] [7, 9] rfl).1⟩

/-- C6: in a server running either agent, let request `id` arrive (with a URL
ending with `/traces` for the envoy-tracing agent) after any inputs `pre`, and
let `mid` be any inputs that follow, of this and of other requests, before the
`end` of request `id`. If the process got that far, then the array `body` of
request `id` holds exactly the chunks of request `id` in `mid`, in arrival order;
at the `end` of request `id` the events of the process are those of the `end`
listener run on these chunks, and the one buffer passed to `decode` is their
concatenation. -/
theorem decode_gets_own_chunks (decode : Buffer → Except E V) (encodeJSON : V → String)
    (agent : Agent V E H) (pre mid : List (Input H)) (id : Nat) (request : Request H)
    (σ₀ σ : Server)
    (hagent : agent = CompiledIn.agent decode encodeJSON ∨
      (agent = Envoy.agent decode encodeJSON ∧ endsWith request.url "/traces" = true))
    (hmid : ∀ i ∈ mid, Input.bounds id i = false)
    (hrun : (run agent σ₀ (pre ++ .request id request :: mid)).result = .ok σ) :
    σ id = .registered (chunksOf id mid) ∧
      (step agent σ (.finish id)).events =
        (Envoy.onEnd decode encodeJSON (chunksOf id mid)).events ∧
      decodeCalls (step agent σ (.finish id)).events = [(chunksOf id mid).flatten] ∧
      (run agent σ₀ (pre ++ .request id request :: (mid ++ [.finish id]))).events =
        (run agent σ₀ (pre ++ .request id request :: mid)).events ++
          (Envoy.onEnd decode encodeJSON (chunksOf id mid)).events := by
  have hpush : agent.onData = fun body chunk => body ++ [chunk] := by
    rcases hagent with h | ⟨h, -⟩ <;> rw [h] <;> rfl
  have hend : agent.onEnd = Envoy.onEnd decode encodeJSON := by
    rcases hagent with h | ⟨h, -⟩ <;> rw [h] <;> rfl
  have hreq : agent.requestListener request = ⟨[], .ok (.registered [])⟩ := by
    rcases hagent with h | ⟨h, hurl⟩
    · rw [h]; rfl
    · rw [h]; exact Envoy.requestListener_traces request hurl
  obtain ⟨σa, -, hb⟩ := run_append_result agent pre _ σ₀ σ hrun
  rw [run_cons] at hb
  obtain ⟨σb, hstep, hrest⟩ := Run.seq_result_ok _ _ _ hb
  have hσb : σb id = .registered [] := by
    have h₁ : step agent σa (.request id request) =
        ⟨[], .ok (Function.update σa id (.registered []))⟩ := by
      show Run.seq (agent.requestListener request) _ = _
      rw [hreq]
      rfl
    rw [h₁] at hstep
    have : σb = Function.update σa id (.registered []) := by simpa using hstep.symm
    rw [this, Function.update_same]
  have hσ := run_keeps_body agent hpush id mid hmid σb σ [] hσb hrest
  rw [List.nil_append] at hσ
  have hevents := step_finish_registered agent σ id _ hσ
  rw [hend] at hevents
  refine ⟨hσ, hevents, ?_, ?_⟩
  · rw [hevents]
    exact decodeCalls_onEnd decode encodeJSON _
  · have hsnoc := run_snoc_events agent (pre ++ .request id request :: mid) (.finish id) σ₀ σ hrun
    rw [List.append_assoc, List.cons_append] at hsnoc
    rw [hsnoc, hevents]

/-- Witness of C6: requests 2 and 1 of the envoy-tracing agent with their chunks
interleaved, request 2 ending first; at its `end` request 1 is decoded from its own
three chunks. -/
theorem decode_gets_own_chunks_witness :
    chunksOf 1 ([.data 2 [0x91], .data 1 [0x92], .data 1 [7], .data 2 [5], .finish 2,
        .data 1 [9]] : List (Input Unit)) = [[0x92], [7], [9]] ∧
      (run (Envoy.agent sampleDecode sampleEncodeJSON) (fun _ => .unregistered)
        ([.request 2 ⟨"POST", "/v0.3/traces", ()⟩] ++ .request 1 ⟨"POST", "/v0.4/traces", ()⟩ ::
          ([.data 2 [0x91], .data 1 [0x92], .data 1 [7], .data 2 [5], .finish 2,
            .data 1 [9]] ++ [.finish 1]))).events =
        [.decode [0x91, 5], .sink [5], .consoleLog "[5]", .writeHead 200,
          .responseEnd (some "\x7b\x7d"),
          .decode [0x92, 7, 9], .sink [7, 9], .consoleLog "[7,9]", .writeHead 200,
          .responseEnd (some "\x7b\x7d")] :=
  ⟨rfl,
    (decode_gets_own_chunks sampleDecode sampleEncodeJSON
      (Envoy.agent sampleDecode sampleEncodeJSON)
      [.request 2 ⟨"POST", "/v0.3/traces", ()⟩]
      [.data 2 [0x91], .data 1 [0x92], .data 1 [7], .data 2 [5], .finish 2, .data 1 [9]]
      1 ⟨"POST", "/v0.4/traces", ()⟩ (fun _ => .unregistered) _
      (Or.inr ⟨rfl, by decide⟩) (by decide) rfl).2.2.2⟩

/-- Counterexample to C8: the compiled-in agent is sent a body to `/other`, a URL
that does not end with `/traces`. The body is decoded, the sink is called, and the
status is 200 with the text of the empty object as body, not 404. -/
theorem compiled_in_other_url_counterexample :
    endsWith "/other" "/traces" = false ∧
      serve (CompiledIn.agent sampleDecode sampleEncodeJSON) (⟨"POST", "/other", ()⟩ : Request Unit)
          [[0x92, 1], [2]] =
        ⟨[.decode [0x92, 1, 2], .sink [1, 2], .consoleLog "[1,2]", .writeHead 200,
          .responseEnd (some "\x7b\x7d")], .ok ()⟩ :=
  ⟨by decide, rfl⟩

/-- C8, amended: the compiled-in agent does not look at the URL. For every
request, `requestListener` writes nothing and registers the listeners; the whole
request is the `end` listener run on the chunks, so the body is decoded once, as a
whole, and status 404 is never written. -/
theorem compiled_in_ignores_url (decode : Buffer → Except E V) (encodeJSON : V → String)
    (request : Request H) (chunks : List Buffer) :
    (CompiledIn.requestListener request : Run V E Listening) = ⟨[], .ok (.registered [])⟩ ∧
      serve (CompiledIn.agent decode encodeJSON) request chunks =
        CompiledIn.onEnd decode encodeJSON chunks ∧
      decodeCalls (serve (CompiledIn.agent decode encodeJSON) request chunks).events =
        [Buffer.concat chunks] ∧
      (404 : Int) ∉ statuses (serve (CompiledIn.agent decode encodeJSON) request chunks).events := by
  refine ⟨rfl, CompiledIn.serve_eq decode encodeJSON request chunks, ?_, ?_⟩
  · rw [CompiledIn.serve_eq, CompiledIn.onEnd_eq]
    exact decodeCalls_onEnd decode encodeJSON chunks
  · rw [CompiledIn.serve_eq, CompiledIn.onEnd_eq]
    cases h : decode (Buffer.concat chunks) with
    | error e => rw [Envoy.onEnd_error decode encodeJSON chunks e h]; simp [statuses]
    | ok v => rw [Envoy.onEnd_ok decode encodeJSON chunks v h]; simp [statuses]

/-- C10: for a request whose URL ends with `/traces` and any chunks, the
compiled-in agent and the envoy-tracing agent run identically: the same listener
call, the same `data` and `end` listeners, and the same whole request, that is the
same events in the same order and the same return or thrown error. -/
theorem agents_agree_on_traces (decode : Buffer → Except E V) (encodeJSON : V → String)
    (request : Request H) (chunks : List Buffer)
    (hurl : endsWith request.url "/traces" = true) :
    (CompiledIn.requestListener request : Run V E Listening) = Envoy.requestListener request ∧
      CompiledIn.onData = Envoy.onData ∧
      CompiledIn.onEnd decode encodeJSON = Envoy.onEnd decode encodeJSON ∧
      serve (CompiledIn.agent decode encodeJSON) request chunks =
        serve (Envoy.agent decode encodeJSON) request chunks := by
  refine ⟨?_, rfl, rfl, ?_⟩
  · rw [Envoy.requestListener_traces request hurl]
    rfl
  · rw [CompiledIn.serve_eq, Envoy.serve_traces decode encodeJSON request chunks hurl]
    rfl

/-- Witness of C10: the same truncated body sent to `/v0.4/traces` makes both
agents throw after the same `decode` call. -/
theorem agents_agree_on_traces_witness :
    endsWith "/v0.4/traces" "/traces" = true ∧
      serve (CompiledIn.agent sampleDecode sampleEncodeJSON)
          (⟨"POST", "/v0.4/traces", ()⟩ : Request Unit) [[0x9a, 1], [2]] =
        serve (Envoy.agent sampleDecode sampleEncodeJSON)
          (⟨"POST", "/v0.4/traces", ()⟩ : Request Unit) [[0x9a, 1], [2]] :=
  ⟨by decide,
    (agents_agree_on_traces sampleDecode sampleEncodeJSON ⟨"POST", "/v0.4/traces", ()⟩ [[0x9a, 1], [2]]
      (by decide)).2.2.2⟩

end Agents

/-! ## Service1 -/

section Service

variable {V E H : Type}

theorem Service1.requestListener_of_match (stringify : H → String) (request : Request H)
    (statusString : List Char) (h : Service1.urlMatch request.url.toList = some statusString) :
    (Service1.requestListener stringify request : Run V E Unit) =
      Run.seq (Run.emit (.consoleLog (stringify request.headers))) fun _ =>
        Run.seq (writeHead (Service1.parseInt statusString)) fun _ =>
          responseEnd (some (stringify request.headers)) := by
  unfold Service1.requestListener
  rw [h]
  rfl

theorem Service1.requestListener_of_no_match (stringify : H → String) (request : Request H)
    (h : Service1.urlMatch request.url.toList = none) :
    (Service1.requestListener stringify request : Run V E Unit) =
      ⟨[.consoleLog (stringify request.headers), .writeHead 200,
        .responseEnd (some (stringify request.headers))], .ok ()⟩ := by
  unfold Service1.requestListener
  rw [h]
  rfl

/-- Counterexample to C7: the URL `/status/99` has the form of the claim, with
the digits `99`, but `writeHead(99)` is refused: the handler throws after printing
the body, and no response with status 99 is written. The URL
`/status/4294967796` has the form too and is answered with status 500. -/
theorem service1_status_counterexample :
    "/status/99" = "" ++ "/status/" ++ "99" ∧
      Service1.integerValue "99".toList = 99 ∧
      (Service1.requestListener (fun _ => "body") (⟨"GET", "/status/99", ()⟩ : Request Unit) :
          Run Unit Unit Unit) =
        ⟨[.consoleLog "body"], .error (.invalidStatusCode (.int 99))⟩ ∧
      (Service1.requestListener (fun _ => "body") (⟨"GET", "/status/4294967796", ()⟩ : Request Unit) :
          Run Unit Unit Unit) =
        ⟨[.consoleLog "body", .writeHead 500, .responseEnd (some "body")], .ok ()⟩ :=
  ⟨by decide, by decide, rfl, rfl⟩

/-- C7, amended: the response of service1 depends on the URL as follows. When
the URL is `p ++ "/status/" ++ d` with `d` a non-empty string of decimal digits
whose integer value is between 100 and 999, the handler prints the body, writes
that value as status and ends the response with the body. When the URL is not of
the form `p ++ "/status/" ++ d` for any non-empty string of digits `d`, it does the
same with status 200. -/
theorem service1_status_from_url (stringify : H → String) (request : Request H) (status : Nat)
    (h : (∃ p d : String, request.url = p ++ "/status/" ++ d ∧ d ≠ "" ∧
          (∀ c ∈ d.toList, Service1.isDigit c = true) ∧
          Service1.integerValue d.toList = status ∧ 100 ≤ status ∧ status ≤ 999) ∨
        ((¬ ∃ p d : String, request.url = p ++ "/status/" ++ d ∧ d ≠ "" ∧
          ∀ c ∈ d.toList, Service1.isDigit c = true) ∧ status = 200)) :
    (Service1.requestListener stringify request : Run V E Unit) =
      ⟨[.consoleLog (stringify request.headers), .writeHead status,
        .responseEnd (some (stringify request.headers))], .ok ()⟩ := by
  rcases h with ⟨p, d, hurl, hne, hall, hval, hlo, hhi⟩ | ⟨hnot, rfl⟩
  · have hne' : d.toList ≠ [] := by
      intro hnil
      exact hne (String.ext hnil)
    have hlist : request.url.toList = p.toList ++ "/status/".toList ++ d.toList := by
      rw [hurl]
      simp [String.toList, String.data_append]
    have hmatch : Service1.urlMatch request.url.toList = some d.toList := by
      rw [hlist]
      exact Service1.urlMatch_of_form _ _ hne' hall
    rw [Service1.requestListener_of_match stringify request _ hmatch,
      Service1.parseInt_digits _ hne' hall (by rw [hval]; omega), hval,
      Service1.writeHead_int status hlo hhi]
    rfl
  · cases hmatch : Service1.urlMatch request.url.toList with
    | none => exact Service1.requestListener_of_no_match stringify request hmatch
    | some d =>
      exfalso
      obtain ⟨p, hp, hne, hall⟩ := Service1.urlMatch_eq_some _ _ hmatch
      refine hnot ⟨String.mk p, String.mk d, ?_, ?_, hall⟩
      · apply String.ext
        simp only [String.data_append]
        exact hp
      · intro hd
        apply hne
        have := congrArg String.data hd
        simpa using this

/-- Witness of C7, amended: the example of the header comment, behind a
prefix. -/
theorem service1_status_from_url_witness :
    "/get/status/500" = "/get" ++ "/status/" ++ "500" ∧
      Service1.integerValue "500".toList = 500 ∧
      (Service1.requestListener (fun _ => "body") (⟨"GET", "/get/status/500", ()⟩ : Request Unit) :
          Run Unit Unit Unit) =
        ⟨[.consoleLog "body", .writeHead 500, .responseEnd (some "body")], .ok ()⟩ :=
  ⟨by decide, by decide,
    service1_status_from_url (fun _ => "body") ⟨"GET", "/get/status/500", ()⟩ 500
      (Or.inl ⟨"/get", "500", by decide, by decide, by decide, by decide, by decide,
        by decide⟩)⟩

/-- C9: the port `server.listen` is given in service1 is 80, which is not the
port 8080 of the header comment. -/
theorem service1_port_is_80 :
    Service1.port = 80 ∧ Service1.port ≠ Service1.documentedPort :=
  ⟨rfl, by decide⟩

end Service

end Examples
